import Mathlib

/-!
Verification of `fast-rcnn/lib/fast_rcnn/config.py` (Fast R-CNN config system).

The file contains a shallow embedding of the configuration module:

* Python/EasyDict values are modelled by `Val`: a primitive value carrying its
  Python type tag (`PrimType`) and payload (`PrimData`), or a nested `edict`
  modelled as an association list from keys to values (Python dicts preserve
  distinct keys; well-formedness of key lists is `wfEntries`).
* numeric payloads (Python `int`/`float` and numeric tuples/lists/arrays) are
  modelled by `Int`/`ℚ`; `math.sqrt` (a float-to-float function) is passed as
  an explicit parameter `sq` where needed.
* `_merge_a_into_b` becomes `mergeAIntoB`/`mergeEntries`, returning
  `Except MergeErr` (Python `KeyError`/`ValueError` become `MergeErr.keyErr`
  and `MergeErr.valErr`); mutation of `b` becomes a returned updated list.
* `_add_more_info` becomes `addMoreInfo`, `cfg_from_file` becomes
  `cfg_from_file`, `get_output_dir` becomes `get_output_dir`.
-/

/-- Python type tags of the primitive (non-dict) values that occur in the
config module: `int`, `float`, `bool`, `str`, `tuple`, `list`, numpy
`ndarray`. -/
inductive PrimType where
  | pint
  | pfloat
  | pbool
  | pstr
  | ptuple
  | plist
  | parr
deriving DecidableEq, Repr

/-- The result of Python `type(v)` for the values the config holds: a
primitive type tag, or `edict`. -/
inductive PyType where
  | prim (t : PrimType)
  | dictT
deriving DecidableEq, Repr

/-- Payload of a primitive value.  Numeric sequences (tuples, lists, numpy
arrays of numbers) all carry a list of rationals; the Python type distinction
between them lives in the `PrimType` tag. -/
inductive PrimData where
  | dint (n : Int)
  | dfloat (q : ℚ)
  | dbool (b : Bool)
  | dstr (s : String)
  | dseq (l : List ℚ)
deriving DecidableEq, Repr

/-- A Python value as stored in the config: a primitive with its type tag, or
an `edict` (association list of string keys to values). -/
inductive Val where
  | vprim (t : PrimType) (d : PrimData)
  | vdict (entries : List (String × Val))
deriving Repr

/-- Python `int` literal. -/
def vint (n : Int) : Val := Val.vprim PrimType.pint (PrimData.dint n)

/-- Python `float` literal. -/
def vfloat (q : ℚ) : Val := Val.vprim PrimType.pfloat (PrimData.dfloat q)

/-- Python `bool` literal. -/
def vbool (b : Bool) : Val := Val.vprim PrimType.pbool (PrimData.dbool b)

/-- Python `str` literal. -/
def vstr (s : String) : Val := Val.vprim PrimType.pstr (PrimData.dstr s)

/-- Python tuple of numbers, e.g. `(0.25, 0.5, 1.0, 2.0, 3.0)`. -/
def vtuple (l : List ℚ) : Val := Val.vprim PrimType.ptuple (PrimData.dseq l)

/-- Python list of numbers (the derived `SCALES`). -/
def vlist (l : List ℚ) : Val := Val.vprim PrimType.plist (PrimData.dseq l)

/-- numpy array of numbers (`SCALE_MAPPING`, `ASPECT_WIDTHS`, ...). -/
def varr (l : List ℚ) : Val := Val.vprim PrimType.parr (PrimData.dseq l)

/-- Python `type(v)` restricted to the modelled values. -/
def pyType : Val → PyType
  | Val.vprim t _ => PyType.prim t
  | Val.vdict _ => PyType.dictT

/-- Key lookup in an edict (Python `b[k]` / `b.has_key(k)`; first matching
entry). -/
def lookup : List (String × Val) → String → Option Val
  | [], _ => none
  | (k1, v) :: rest, k => if k1 = k then some v else lookup rest k

/-- The key list of an edict. -/
def keys (l : List (String × Val)) : List String := l.map Prod.fst

/-- Python dict assignment `b[k] = v`: replace the value at `k` if present,
add the entry otherwise. -/
def dictSet : List (String × Val) → String → Val → List (String × Val)
  | [], k, v => [(k, v)]
  | (k1, v1) :: rest, k, v =>
    if k1 = k then (k1, v) :: rest else (k1, v1) :: dictSet rest k v

/-- The exceptions `_merge_a_into_b` can raise: `KeyError` for a key of `a`
missing from `b`, `ValueError` for a type mismatch, each recording the
offending key. -/
inductive MergeErr where
  | keyErr (k : String)
  | valErr (k : String)
deriving DecidableEq, Repr

/-- Does a `MergeErr` model a Python `KeyError`? -/
def isKeyError : MergeErr → Bool
  | MergeErr.keyErr _ => true
  | MergeErr.valErr _ => false

/-- Does a `MergeErr` model a Python `ValueError`? -/
def isValueError : MergeErr → Bool
  | MergeErr.keyErr _ => false
  | MergeErr.valErr _ => true

/-- The loop body of `_merge_a_into_b` (config.py lines 245-264): iterate over
the entries of `a`; a key absent from `b` raises `KeyError`; a type mismatch
raises `ValueError`; an edict value is merged recursively into `b[k]` (the
`try`/`except` around the recursive call only prints and re-raises, so errors
propagate unchanged); any other value is assigned, clobbering `b[k]`.
The arm pairing an edict value with a primitive `b[k]` is unreachable: the
type guard has already raised `ValueError` in that situation. -/
def mergeEntries : List (String × Val) → List (String × Val) →
    Except MergeErr (List (String × Val))
  | [], b => Except.ok b
  | (k, v) :: rest, b =>
    match lookup b k with
    | none => Except.error (MergeErr.keyErr k)
    | some bv =>
      if pyType bv = pyType v then
        match v with
        | Val.vdict va =>
          match bv with
          | Val.vdict vb =>
            (match mergeEntries va vb with
             | Except.ok m => mergeEntries rest (dictSet b k (Val.vdict m))
             | Except.error e => Except.error e)
          | Val.vprim _ _ => Except.error (MergeErr.valErr k)
        | Val.vprim t d => mergeEntries rest (dictSet b k (Val.vprim t d))
      else Except.error (MergeErr.valErr k)

/-- Model of `_merge_a_into_b(a, b)` (config.py lines 238-264) where `b` is an edict
(given by its entries, as the global config always is): if `a` is not an
edict the function returns immediately leaving `b` untouched, otherwise the
entries of `a` are merged into `b`. -/
def mergeAIntoB (a : Val) (b : List (String × Val)) :
    Except MergeErr (List (String × Val)) :=
  match a with
  | Val.vdict ae => mergeEntries ae b
  | Val.vprim _ _ => Except.ok b

mutual
/-- The key/value structure a real Python value has: distinct keys in every
dict, at every level (the module's `edict`s always satisfy this). -/
inductive WFVal : Val → Prop where
  | prim : ∀ t d, WFVal (Val.vprim t d)
  | dict : ∀ l, WFEntries l → WFVal (Val.vdict l)
/-- Entry lists of a real Python dict: distinct keys, well-formed values. -/
inductive WFEntries : List (String × Val) → Prop where
  | nil : WFEntries []
  | cons : ∀ k v rest, ¬ k ∈ keys rest → WFVal v → WFEntries rest →
      WFEntries ((k, v) :: rest)
end

/-- Somewhere in `a` there is a key absent from `b`: either at the top level,
or below a key whose value is an edict on both sides (the shape of nesting
the recursive merge descends into). -/
inductive MissingKey : List (String × Val) → List (String × Val) → Prop where
  | here : ∀ a b k v, lookup a k = some v → lookup b k = none → MissingKey a b
  | nest : ∀ a b k va vb, lookup a k = some (Val.vdict va) →
      lookup b k = some (Val.vdict vb) → MissingKey va vb → MissingKey a b

/-- Somewhere in `a` there is a key whose value has a different Python type
from the value `b` holds at that key: at the top level, or below a key whose
value is an edict on both sides. -/
inductive TypeMismatch : List (String × Val) → List (String × Val) → Prop where
  | here : ∀ a b k v bv, lookup a k = some v → lookup b k = some bv →
      pyType v ≠ pyType bv → TypeMismatch a b
  | nest : ∀ a b k va vb, lookup a k = some (Val.vdict va) →
      lookup b k = some (Val.vdict vb) → TypeMismatch va vb → TypeMismatch a b

/-- Number of pyramid scales, `num = (num_scale_base - 1) * num_per_octave + 1`
(config.py line 178; over `ℤ` because Python evaluates it over machine
integers, where `num_scale_base = 0` makes it non-positive). -/
def numScales (n p : ℕ) : ℤ := ((n : ℤ) - 1) * p + 1

/-- One iteration of the scale loop (config.py lines 180-189): the scale
appended for loop index `i`.  Out-of-range tuple indexing is `none` (Python
`IndexError`). -/
def scaleAt (scales_base : List ℚ) (num_per_octave : ℕ) (i : ℕ) : Option ℚ :=
  match scales_base[i / num_per_octave]? with
  | none => none
  | some sbase =>
    if i % num_per_octave = 0 then some sbase
    else
      match scales_base[i / num_per_octave + 1]? with
      | none => none
      | some sbase_next =>
        some (sbase + (i % num_per_octave : ℚ) *
          ((sbase_next - sbase) / (num_per_octave : ℚ)))

/-- The `scales` list built by the loop of `_add_more_info`
(config.py lines 177-189). -/
def computeScales (scales_base : List ℚ) (num_per_octave : ℕ) :
    Option (List ℚ) :=
  (List.range (numScales scales_base.length num_per_octave).toNat).mapM
    (scaleAt scales_base num_per_octave)

/-- Closed form of the scale entries as the specification sentence states it
(for the refinement claim about `computeScales`): `SCALES_BASE[i div p]` when
`i mod p = 0`, otherwise
`SCALES_BASE[i div p] + (i mod p) * (SCALES_BASE[i div p + 1] - SCALES_BASE[i div p]) / p`. -/
def scaleSpec (scales_base : List ℚ) (p i : ℕ) : ℚ :=
  if i % p = 0 then scales_base.getD (i / p) 0
  else scales_base.getD (i / p) 0 +
    (i % p : ℚ) * (scales_base.getD (i / p + 1) 0 - scales_base.getD (i / p) 0) / p

/-- Index of the first minimum of a list (`np.argmin`; 0 on the empty list,
which numpy rejects). -/
def argmin : List ℚ → ℕ
  | [] => 0
  | x :: xs => if xs.all (fun y => decide (x ≤ y)) then 0 else argmin xs + 1

/-- The `levels` row computation of `_add_more_info` (config.py lines
204-209): for each scale `s`, the index of the scale `s2` minimising
`|area / s^2 * s2^2 - 224 * 224|`. -/
def scaleMapping (area : ℚ) (scales : List ℚ) : List ℕ :=
  scales.map (fun s =>
    argmin (scales.map (fun s2 => |area / (s * s) * (s2 * s2) - 224 * 224|)))

/-- The `widths` array of `_add_more_info` (config.py line 228):
`widths[i] = sqrt(area / aspect[i])`, with the square-root function passed
explicitly (`math.sqrt` at type `ℝ`, machine sqrt at type `ℚ`). -/
def aspect_widths {α : Type} [Field α] (sq : α → α) (area : α)
    (aspects : List α) : List α :=
  aspects.map (fun a => sq (area / a))

/-- The `heights` array of `_add_more_info` (config.py line 229):
`heights[i] = widths[i] * aspect[i]`. -/
def aspect_heights {α : Type} [Field α] (sq : α → α) (area : α)
    (aspects : List α) : List α :=
  aspects.map (fun a => sq (area / a) * a)

/-- Read a numeric-sequence attribute (tuple/list/array payload). -/
def readSeq (sub : List (String × Val)) (k : String) : Option (List ℚ) :=
  match lookup sub k with
  | some (Val.vprim _ (PrimData.dseq l)) => some l
  | _ => none

/-- Read an integer attribute. -/
def readInt (sub : List (String × Val)) (k : String) : Option Int :=
  match lookup sub k with
  | some (Val.vprim _ (PrimData.dint n)) => some n
  | _ => none

/-- Read a numeric attribute (`int` or `float`, as Python arithmetic accepts
both). -/
def readNum (sub : List (String × Val)) (k : String) : Option ℚ :=
  match lookup sub k with
  | some (Val.vprim _ (PrimData.dint n)) => some (n : ℚ)
  | some (Val.vprim _ (PrimData.dfloat q)) => some q
  | _ => none

/-- Model of `_add_more_info(is_train)` (config.py lines 168-236) acting on the config
`c`: read `SCALES_BASE`, `NUM_PER_OCTAVE`, `KERNEL_SIZE`, `SPATIAL_SCALE` and
`ASPECTS` from the `TRAIN` or `TEST` sub-dict, compute the scale list, the
scale-to-level mapping and the grid-box widths/heights, and store them as
`SCALES`, `SCALE_MAPPING`, `ASPECT_WIDTHS`, `ASPECT_HEIGHTS`.  A missing or
non-numeric attribute is `none` (Python raises).  A non-positive
`NUM_PER_OCTAVE` is outside the model (`none`): Python 2 would divide by zero
for 0 and use floor division on negatives; the defaults use 4 and the merge
preserves the `int` type but not positivity. -/
def addMoreInfo (sq : ℚ → ℚ) (is_train : Bool) (c : List (String × Val)) :
    Option (List (String × Val)) :=
  let key := if is_train then "TRAIN" else "TEST"
  match lookup c key with
  | some (Val.vdict sub) =>
    match readSeq sub "SCALES_BASE", readInt sub "NUM_PER_OCTAVE",
        readNum sub "KERNEL_SIZE", readNum sub "SPATIAL_SCALE",
        readSeq sub "ASPECTS" with
    | some scales_base, some num_per_octave, some kernel, some spatial,
        some aspects =>
      if 0 < num_per_octave then
        match computeScales scales_base num_per_octave.toNat with
        | some scales =>
          let kernel_size := kernel / spatial
          let area := kernel_size * kernel_size
          let levels := scaleMapping area scales
          let area2 := kernel * kernel
          let widths := aspect_widths sq area2 aspects
          let heights := aspect_heights sq area2 aspects
          let sub2 := dictSet sub "SCALES" (vlist scales)
          let sub3 := dictSet sub2 "SCALE_MAPPING"
            (varr (levels.map (fun n => (n : ℚ))))
          let sub4 := dictSet sub3 "ASPECT_WIDTHS" (varr widths)
          let sub5 := dictSet sub4 "ASPECT_HEIGHTS" (varr heights)
          some (dictSet c key (Val.vdict sub5))
        | none => none
      else none
    | _, _, _, _, _ => none
  | _ => none

/-- Model of `cfg_from_file(filename)` (config.py lines 266-274) applied to the parsed
YAML value: merge it into the config, then run `_add_more_info(1)` and
`_add_more_info(0)`.  A merge exception propagates (`Except.error`); a
failure inside the geometry computation is `Except.ok none`. -/
def cfg_from_file (sq : ℚ → ℚ) (yaml_cfg : Val) (c : List (String × Val)) :
    Except MergeErr (Option (List (String × Val))) :=
  match mergeAIntoB yaml_cfg c with
  | Except.error e => Except.error e
  | Except.ok c1 =>
    match addMoreInfo sq true c1 with
    | none => Except.ok none
    | some c2 =>
      match addMoreInfo sq false c2 with
      | none => Except.ok none
      | some c3 => Except.ok (some c3)

/-- The two config attributes `get_output_dir` reads. -/
structure OutCfg where
  ROOT_DIR : String
  EXP_DIR : String

/-- Model of `os.path.join` of two components (`os.path.abspath` is modelled as the
identity: no filesystem). -/
def pathJoin (p q : String) : String := p ++ "/" ++ q

/-- Model of `get_output_dir(imdb, net)` (config.py lines 156-166), passing the config
state through to express that it is returned unchanged. -/
def get_output_dir (cfg : OutCfg) (imdb_name : String)
    (net_name : Option String) : String × OutCfg :=
  let path := pathJoin (pathJoin (pathJoin cfg.ROOT_DIR "output") cfg.EXP_DIR)
    imdb_name
  match net_name with
  | none => (path, cfg)
  | some n => (pathJoin path n, cfg)

theorem lookup_dictSet_self (b : List (String × Val)) (k : String) (v : Val) :
    lookup (dictSet b k v) k = some v := by
  induction b with
  | nil => simp [dictSet, lookup]
  | cons hd tl ih =>
    obtain ⟨k1, v1⟩ := hd
    by_cases h : k1 = k
    · subst h; simp [dictSet, lookup]
    · simp [dictSet, lookup, h, ih]

theorem lookup_dictSet_ne (b : List (String × Val)) {k1 k2 : String}
    (v : Val) (h : k1 ≠ k2) :
    lookup (dictSet b k1 v) k2 = lookup b k2 := by
  induction b with
  | nil => simp [dictSet, lookup, h]
  | cons hd tl ih =>
    obtain ⟨k0, v0⟩ := hd
    by_cases h0 : k0 = k1
    · subst h0; simp [dictSet, lookup, h]
    · simp [dictSet, lookup, h0, ih]

theorem keys_dictSet (b : List (String × Val)) {k : String} {bv : Val}
    (v : Val) (h : lookup b k = some bv) :
    keys (dictSet b k v) = keys b := by
  induction b with
  | nil => simp [lookup] at h
  | cons hd tl ih =>
    obtain ⟨k0, v0⟩ := hd
    by_cases h0 : k0 = k
    · subst h0; simp [dictSet, keys]
    · simp [lookup, h0] at h
      simp [dictSet, keys, h0]
      simpa [keys] using ih h

theorem lookup_some_mem {b : List (String × Val)} {k : String} {v : Val}
    (h : lookup b k = some v) : k ∈ keys b := by
  induction b with
  | nil => simp [lookup] at h
  | cons hd tl ih =>
    obtain ⟨k0, v0⟩ := hd
    by_cases h0 : k0 = k
    · subst h0; simp [keys]
    · simp [lookup, h0] at h
      simp [keys]
      exact Or.inr (by simpa [keys] using ih h)

/-- A successful merge never adds or removes keys of `b`. -/
theorem mergeEntries_ok_keys :
    ∀ a b b', mergeEntries a b = Except.ok b' → keys b' = keys b := by
  intro a b
  induction a, b using mergeEntries.induct with
  | case1 b =>
    intro b' h
    simp [mergeEntries] at h
    simp [h]
  | case2 k v rest b hlk =>
    intro b' h
    simp [mergeEntries, hlk] at h
  | case3 k rest b va vb m hm hlk hty ih1 ih2 =>
    intro b' h
    simp [mergeEntries, hlk, hty, hm] at h
    exact (ih2 b' h).trans (keys_dictSet b _ hlk)
  | case4 k rest b va vb e hm hlk hty ih1 =>
    intro b' h
    simp [mergeEntries, hlk, hty, hm] at h
  | case5 k rest b va t d hlk hty =>
    intro b' h
    simp [pyType] at hty
  | case6 k rest b bv hlk t d hty ih =>
    intro b' h
    simp [mergeEntries, hlk, hty] at h
    exact (ih b' h).trans (keys_dictSet b _ hlk)
  | case7 k v rest b bv hlk hty =>
    intro b' h
    simp [mergeEntries, hlk, hty] at h

/-- A successful merge leaves every key not mentioned in `a` bound to its
previous value. -/
theorem mergeEntries_ok_frame :
    ∀ a b b', mergeEntries a b = Except.ok b' →
      ∀ k0, lookup a k0 = none → lookup b' k0 = lookup b k0 := by
  intro a b
  induction a, b using mergeEntries.induct with
  | case1 b =>
    intro b' h k0 _
    simp [mergeEntries] at h
    simp [h]
  | case2 k v rest b hlk =>
    intro b' h
    simp [mergeEntries, hlk] at h
  | case3 k rest b va vb m hm hlk hty ih1 ih2 =>
    intro b' h k0 hk0
    by_cases hne : k = k0
    · subst hne; simp [lookup] at hk0
    · simp [lookup, hne] at hk0
      simp [mergeEntries, hlk, hty, hm] at h
      rw [ih2 b' h k0 (by simpa [lookup] using hk0)]
      exact lookup_dictSet_ne b _ hne
  | case4 k rest b va vb e hm hlk hty ih1 =>
    intro b' h
    simp [mergeEntries, hlk, hty, hm] at h
  | case5 k rest b va t d hlk hty =>
    intro b' h
    simp [pyType] at hty
  | case6 k rest b bv hlk t d hty ih =>
    intro b' h k0 hk0
    by_cases hne : k = k0
    · subst hne; simp [lookup] at hk0
    · simp [lookup, hne] at hk0
      simp [mergeEntries, hlk, hty] at h
      rw [ih b' h k0 (by simpa [lookup] using hk0)]
      exact lookup_dictSet_ne b _ hne
  | case7 k v rest b bv hlk hty =>
    intro b' h
    simp [mergeEntries, hlk, hty] at h

theorem keys_cons (k : String) (v : Val) (rest : List (String × Val)) :
    keys ((k, v) :: rest) = k :: keys rest := rfl

theorem lookup_not_mem {b : List (String × Val)} {k : String}
    (h : ¬ k ∈ keys b) : lookup b k = none := by
  induction b with
  | nil => simp [lookup]
  | cons hd tl ih =>
    obtain ⟨k0, v0⟩ := hd
    rw [keys_cons] at h
    simp at h
    simp [lookup, h.1, ih h.2]
    exact fun he => h.1 he.symm

/-- After a successful merge, a key of `a` holding a primitive is bound in the
result to exactly the value from `a`, and a key of `a` holding an edict is
bound to the result of recursively merging that edict into what `b` held
there. -/
theorem mergeEntries_ok_lookup :
    ∀ a b, (keys a).Nodup → ∀ b', mergeEntries a b = Except.ok b' →
      ∀ k0 v0, lookup a k0 = some v0 →
        (pyType v0 ≠ PyType.dictT → lookup b' k0 = some v0) ∧
        (∀ va0, v0 = Val.vdict va0 → ∃ vb0 m0,
          lookup b k0 = some (Val.vdict vb0) ∧
          mergeEntries va0 vb0 = Except.ok m0 ∧
          lookup b' k0 = some (Val.vdict m0)) := by
  intro a b
  induction a, b using mergeEntries.induct with
  | case1 b =>
    intro _ b' _ k0 v0 hk0
    simp [lookup] at hk0
  | case2 k v rest b hlk =>
    intro _ b' h
    simp [mergeEntries, hlk] at h
  | case3 k rest b va vb m hm hlk hty ih1 ih2 =>
    intro hnd b' h k0 v0 hk0
    rw [keys_cons] at hnd
    have hnd1 := (List.nodup_cons.mp hnd).1
    have hnd2 := (List.nodup_cons.mp hnd).2
    simp [mergeEntries, hlk, hty, hm] at h
    by_cases hk : k = k0
    · subst hk
      simp [lookup] at hk0
      subst hk0
      refine ⟨fun hpt => absurd rfl hpt, fun va0 heq => ?_⟩
      obtain rfl : va = va0 := by simpa using heq
      refine ⟨vb, m, hlk, hm, ?_⟩
      rw [mergeEntries_ok_frame rest _ b' h k (lookup_not_mem hnd1)]
      exact lookup_dictSet_self b k (Val.vdict m)
    · simp [lookup, hk] at hk0
      obtain ⟨h1, h2⟩ := ih2 hnd2 b' h k0 v0 hk0
      refine ⟨h1, fun va0 heq => ?_⟩
      obtain ⟨vb0, m0, hb0, hm0, hb'⟩ := h2 va0 heq
      rw [lookup_dictSet_ne b _ hk] at hb0
      exact ⟨vb0, m0, hb0, hm0, hb'⟩
  | case4 k rest b va vb e hm hlk hty ih1 =>
    intro _ b' h
    simp [mergeEntries, hlk, hty, hm] at h
  | case5 k rest b va t d hlk hty =>
    intro _ b' h
    simp [pyType] at hty
  | case6 k rest b bv hlk t d hty ih =>
    intro hnd b' h k0 v0 hk0
    rw [keys_cons] at hnd
    have hnd1 := (List.nodup_cons.mp hnd).1
    have hnd2 := (List.nodup_cons.mp hnd).2
    simp [mergeEntries, hlk, hty] at h
    by_cases hk : k = k0
    · subst hk
      simp [lookup] at hk0
      subst hk0
      refine ⟨fun _ => ?_, fun va0 heq => by simp at heq⟩
      rw [mergeEntries_ok_frame rest _ b' h k (lookup_not_mem hnd1)]
      exact lookup_dictSet_self b k (Val.vprim t d)
    · simp [lookup, hk] at hk0
      obtain ⟨h1, h2⟩ := ih hnd2 b' h k0 v0 hk0
      refine ⟨h1, fun va0 heq => ?_⟩
      obtain ⟨vb0, m0, hb0, hm0, hb'⟩ := h2 va0 heq
      rw [lookup_dictSet_ne b _ hk] at hb0
      exact ⟨vb0, m0, hb0, hm0, hb'⟩
  | case7 k v rest b bv hlk hty =>
    intro _ b' h
    simp [mergeEntries, hlk, hty] at h

/-- A key of `a` absent from `b` rules out a successful merge. -/
theorem mergeEntries_ne_ok_of_missing :
    ∀ a b, ∀ k0 v0, lookup a k0 = some v0 → lookup b k0 = none →
      ∀ r, mergeEntries a b ≠ Except.ok r := by
  intro a b
  induction a, b using mergeEntries.induct with
  | case1 b =>
    intro k0 v0 ha _ r
    simp [lookup] at ha
  | case2 k v rest b hlk =>
    intro k0 v0 _ _ r
    simp [mergeEntries, hlk]
  | case3 k rest b va vb m hm hlk hty ih1 ih2 =>
    intro k0 v0 ha hb r
    have hne : k ≠ k0 := fun he => by rw [he, hb] at hlk; cases hlk
    simp [lookup, hne] at ha
    simp [mergeEntries, hlk, hty, hm]
    exact ih2 k0 v0 ha (by rw [lookup_dictSet_ne b _ hne]; exact hb) r
  | case4 k rest b va vb e hm hlk hty ih1 =>
    intro k0 v0 _ _ r
    simp [mergeEntries, hlk, hty, hm]
  | case5 k rest b va t d hlk hty =>
    intro k0 v0 _ _ r
    simp [pyType] at hty
  | case6 k rest b bv hlk t d hty ih =>
    intro k0 v0 ha hb r
    have hne : k ≠ k0 := fun he => by rw [he, hb] at hlk; cases hlk
    simp [lookup, hne] at ha
    simp [mergeEntries, hlk, hty]
    exact ih k0 v0 ha (by rw [lookup_dictSet_ne b _ hne]; exact hb) r
  | case7 k v rest b bv hlk hty =>
    intro k0 v0 _ _ r
    simp [mergeEntries, hlk, hty]

/-- A key at which both sides hold edicts whose merge cannot succeed rules out
a successful merge of the outer dicts. -/
theorem mergeEntries_ne_ok_of_inner :
    ∀ a b, ∀ k0 va0 vb0, lookup a k0 = some (Val.vdict va0) →
      lookup b k0 = some (Val.vdict vb0) →
      (∀ r0, mergeEntries va0 vb0 ≠ Except.ok r0) →
      ∀ r, mergeEntries a b ≠ Except.ok r := by
  intro a b
  induction a, b using mergeEntries.induct with
  | case1 b =>
    intro k0 va0 vb0 ha _ _ r
    simp [lookup] at ha
  | case2 k v rest b hlk =>
    intro k0 va0 vb0 _ _ _ r
    simp [mergeEntries, hlk]
  | case3 k rest b va vb m hm hlk hty ih1 ih2 =>
    intro k0 va0 vb0 ha hb hinner r
    by_cases hne : k = k0
    · subst hne
      simp [lookup] at ha
      rw [hlk] at hb
      simp at hb
      subst ha
      subst hb
      exact absurd hm (hinner m)
    · simp [lookup, hne] at ha
      simp [mergeEntries, hlk, hty, hm]
      exact ih2 k0 va0 vb0 ha
        (by rw [lookup_dictSet_ne b _ hne]; exact hb) hinner r
  | case4 k rest b va vb e hm hlk hty ih1 =>
    intro k0 va0 vb0 _ _ _ r
    simp [mergeEntries, hlk, hty, hm]
  | case5 k rest b va t d hlk hty =>
    intro k0 va0 vb0 _ _ _ r
    simp [pyType] at hty
  | case6 k rest b bv hlk t d hty ih =>
    intro k0 va0 vb0 ha hb hinner r
    by_cases hne : k = k0
    · subst hne
      simp [lookup] at ha
    · simp [lookup, hne] at ha
      simp [mergeEntries, hlk, hty]
      exact ih k0 va0 vb0 ha
        (by rw [lookup_dictSet_ne b _ hne]; exact hb) hinner r
  | case7 k v rest b bv hlk hty =>
    intro k0 va0 vb0 _ _ _ r
    simp [mergeEntries, hlk, hty]

/-- A key of `a` whose value type differs from the type of the value `b`
holds there rules out a successful merge. -/
theorem mergeEntries_ne_ok_of_mismatch :
    ∀ a b, ∀ k0 v0 bv0, lookup a k0 = some v0 → lookup b k0 = some bv0 →
      pyType v0 ≠ pyType bv0 → ∀ r, mergeEntries a b ≠ Except.ok r := by
  intro a b
  induction a, b using mergeEntries.induct with
  | case1 b =>
    intro k0 v0 bv0 ha _ _ r
    simp [lookup] at ha
  | case2 k v rest b hlk =>
    intro k0 v0 bv0 _ _ _ r
    simp [mergeEntries, hlk]
  | case3 k rest b va vb m hm hlk hty ih1 ih2 =>
    intro k0 v0 bv0 ha hb hmis r
    by_cases hne : k = k0
    · subst hne
      simp [lookup] at ha
      rw [hlk] at hb
      simp at hb
      subst ha
      subst hb
      exact absurd (by simp [pyType]) hmis
    · simp [lookup, hne] at ha
      simp [mergeEntries, hlk, hty, hm]
      exact ih2 k0 v0 bv0 ha
        (by rw [lookup_dictSet_ne b _ hne]; exact hb) hmis r
  | case4 k rest b va vb e hm hlk hty ih1 =>
    intro k0 v0 bv0 _ _ _ r
    simp [mergeEntries, hlk, hty, hm]
  | case5 k rest b va t d hlk hty =>
    intro k0 v0 bv0 _ _ _ r
    simp [pyType] at hty
  | case6 k rest b bv hlk t d hty ih =>
    intro k0 v0 bv0 ha hb hmis r
    by_cases hne : k = k0
    · subst hne
      simp [lookup] at ha
      rw [hlk] at hb
      simp at hb
      subst ha
      subst hb
      exact absurd hty.symm hmis
    · simp [lookup, hne] at ha
      simp [mergeEntries, hlk, hty]
      exact ih k0 v0 bv0 ha
        (by rw [lookup_dictSet_ne b _ hne]; exact hb) hmis r
  | case7 k v rest b bv hlk hty =>
    intro k0 v0 bv0 _ _ _ r
    simp [mergeEntries, hlk, hty]

/-- A missing-key defect of the tail against an updated `b` (at the distinct
head key) is a defect of the whole list against `b`. -/
theorem missingKey_unset {rest b : List (String × Val)} {k1 : String}
    (v1 w : Val) (hnotin : ¬ k1 ∈ keys rest)
    (h : MissingKey rest (dictSet b k1 w)) :
    MissingKey ((k1, v1) :: rest) b := by
  cases h with
  | here a b2 k v ha hb =>
    have hne : k1 ≠ k := fun he => hnotin (he ▸ lookup_some_mem ha)
    rw [lookup_dictSet_ne b w hne] at hb
    exact MissingKey.here _ _ k v (by simp [lookup, hne]; exact ha) hb
  | nest a b2 k va vb ha hb hsub =>
    have hne : k1 ≠ k := fun he => hnotin (he ▸ lookup_some_mem ha)
    rw [lookup_dictSet_ne b w hne] at hb
    exact MissingKey.nest _ _ k va vb (by simp [lookup, hne]; exact ha) hb hsub

/-- A type-mismatch defect of the tail against an updated `b` (at the distinct
head key) is a defect of the whole list against `b`. -/
theorem typeMismatch_unset {rest b : List (String × Val)} {k1 : String}
    (v1 w : Val) (hnotin : ¬ k1 ∈ keys rest)
    (h : TypeMismatch rest (dictSet b k1 w)) :
    TypeMismatch ((k1, v1) :: rest) b := by
  cases h with
  | here a b2 k v bv ha hb hmis =>
    have hne : k1 ≠ k := fun he => hnotin (he ▸ lookup_some_mem ha)
    rw [lookup_dictSet_ne b w hne] at hb
    exact TypeMismatch.here _ _ k v bv (by simp [lookup, hne]; exact ha) hb hmis
  | nest a b2 k va vb ha hb hsub =>
    have hne : k1 ≠ k := fun he => hnotin (he ▸ lookup_some_mem ha)
    rw [lookup_dictSet_ne b w hne] at hb
    exact TypeMismatch.nest _ _ k va vb (by simp [lookup, hne]; exact ha) hb hsub

/-- When the merge of a well-formed `a` raises, `a` holds (at some reached
nesting level) a key missing from `b` or a type-mismatched value. -/
theorem mergeEntries_error_defect :
    ∀ a b, WFEntries a → ∀ e, mergeEntries a b = Except.error e →
      MissingKey a b ∨ TypeMismatch a b := by
  intro a b
  induction a, b using mergeEntries.induct with
  | case1 b =>
    intro _ e h
    simp [mergeEntries] at h
  | case2 k v rest b hlk =>
    intro _ e _
    exact Or.inl (MissingKey.here _ _ k v (by simp [lookup]) hlk)
  | case3 k rest b va vb m hm hlk hty ih1 ih2 =>
    intro hwf e h
    cases hwf with
    | cons _ _ _ hnotin hwfv hwfrest =>
      simp [mergeEntries, hlk, hty, hm] at h
      cases ih2 hwfrest e h with
      | inl hmk => exact Or.inl (missingKey_unset _ _ hnotin hmk)
      | inr htm => exact Or.inr (typeMismatch_unset _ _ hnotin htm)
  | case4 k rest b va vb e0 hm hlk hty ih1 =>
    intro hwf e _
    cases hwf with
    | cons _ _ _ hnotin hwfv hwfrest =>
      cases hwfv with
      | dict _ hwfva =>
        cases ih1 hwfva e0 hm with
        | inl hmk =>
          exact Or.inl (MissingKey.nest _ _ k va vb (by simp [lookup]) hlk hmk)
        | inr htm =>
          exact Or.inr (TypeMismatch.nest _ _ k va vb (by simp [lookup]) hlk htm)
  | case5 k rest b va t d hlk hty =>
    intro _ e _
    simp [pyType] at hty
  | case6 k rest b bv hlk t d hty ih =>
    intro hwf e h
    cases hwf with
    | cons _ _ _ hnotin hwfv hwfrest =>
      simp [mergeEntries, hlk, hty] at h
      cases ih hwfrest e h with
      | inl hmk => exact Or.inl (missingKey_unset _ _ hnotin hmk)
      | inr htm => exact Or.inr (typeMismatch_unset _ _ hnotin htm)
  | case7 k v rest b bv hlk hty =>
    intro _ e _
    exact Or.inr (TypeMismatch.here _ _ k v bv (by simp [lookup]) hlk
      (fun hh => hty hh.symm))

/-- C1 (counterexample): an edict `a` with a key `"y"` missing from `b` for
which `_merge_a_into_b` nevertheless raises `ValueError`, not `KeyError`: the
type mismatch at the key `"x"`, iterated first, is reported instead. -/
theorem c1_counterexample :
    mergeEntries [("x", vstr "s"), ("y", vint 0)] [("x", vint 0)]
      = Except.error (MergeErr.valErr "x") ∧
    isKeyError (MergeErr.valErr "x") = false ∧
    MissingKey [("x", vstr "s"), ("y", vint 0)] [("x", vint 0)] := by
  refine ⟨by simp [mergeEntries, lookup, pyType, vstr, vint], rfl, ?_⟩
  exact MissingKey.here _ _ "y" (vint 0) (by simp [lookup]) (by simp [lookup])

/-- C1 (amended): if `a` contains a key that is not a key of `b` (at the top
level, or at any nesting level below keys holding edicts on both sides), then
`_merge_a_into_b(a, b)` raises an error — a `KeyError` or a `ValueError`. -/
theorem c1_missing_key_raises (a b : List (String × Val))
    (h : MissingKey a b) :
    ∃ e, mergeAIntoB (Val.vdict a) b = Except.error e := by
  induction h with
  | here a1 b1 k v ha hb =>
    cases hr : mergeEntries a1 b1 with
    | ok r => exact absurd hr (mergeEntries_ne_ok_of_missing a1 b1 k v ha hb r)
    | error e => exact ⟨e, by simp [mergeAIntoB, hr]⟩
  | nest a1 b1 k va vb ha hb hmk ih =>
    obtain ⟨e0, he0⟩ := ih
    simp [mergeAIntoB] at he0
    cases hr : mergeEntries a1 b1 with
    | ok r =>
      exact absurd hr (mergeEntries_ne_ok_of_inner a1 b1 k va vb ha hb
        (fun r0 hok => by simp [hok] at he0) r)
    | error e => exact ⟨e, by simp [mergeAIntoB, hr]⟩

theorem c1_missing_key_raises_witness :
    ∃ e, mergeAIntoB (Val.vdict [("y", vint 0)]) [] = Except.error e :=
  c1_missing_key_raises [("y", vint 0)] []
    (MissingKey.here _ _ "y" (vint 0) (by simp [lookup]) (by simp [lookup]))

/-- C2 (counterexample): edicts `a`, `b` with a type mismatch at the common
key `"y"` for which `_merge_a_into_b` nevertheless raises `KeyError`, not
`ValueError`: the missing key `"x"`, iterated first, is reported instead. -/
theorem c2_counterexample :
    mergeEntries [("x", vint 0), ("y", vstr "s")] [("y", vint 1)]
      = Except.error (MergeErr.keyErr "x") ∧
    isValueError (MergeErr.keyErr "x") = false ∧
    TypeMismatch [("x", vint 0), ("y", vstr "s")] [("y", vint 1)] := by
  refine ⟨by simp [mergeEntries, lookup], rfl, ?_⟩
  exact TypeMismatch.here _ _ "y" (vstr "s") (vint 1) (by simp [lookup])
    (by simp [lookup]) (by simp [pyType, vstr, vint])

/-- C2 (amended): if some key present in both edicts holds values of
different types (at the top level, or at any nesting level below keys holding
edicts on both sides), then `_merge_a_into_b(a, b)` raises an error — a
`ValueError` or a `KeyError`. -/
theorem c2_type_mismatch_raises (a b : List (String × Val))
    (h : TypeMismatch a b) :
    ∃ e, mergeAIntoB (Val.vdict a) b = Except.error e := by
  induction h with
  | here a1 b1 k v bv ha hb hmis =>
    cases hr : mergeEntries a1 b1 with
    | ok r =>
      exact absurd hr (mergeEntries_ne_ok_of_mismatch a1 b1 k v bv ha hb hmis r)
    | error e => exact ⟨e, by simp [mergeAIntoB, hr]⟩
  | nest a1 b1 k va vb ha hb htm ih =>
    obtain ⟨e0, he0⟩ := ih
    simp [mergeAIntoB] at he0
    cases hr : mergeEntries a1 b1 with
    | ok r =>
      exact absurd hr (mergeEntries_ne_ok_of_inner a1 b1 k va vb ha hb
        (fun r0 hok => by simp [hok] at he0) r)
    | error e => exact ⟨e, by simp [mergeAIntoB, hr]⟩

theorem c2_type_mismatch_raises_witness :
    ∃ e, mergeAIntoB (Val.vdict [("x", vstr "s")]) [("x", vint 0)]
      = Except.error e :=
  c2_type_mismatch_raises [("x", vstr "s")] [("x", vint 0)]
    (TypeMismatch.here _ _ "x" (vstr "s") (vint 0) (by simp [lookup])
      (by simp [lookup]) (by simp [pyType, vstr, vint]))

/-- C3: when `_merge_a_into_b(a, b)` returns without raising, every key of
`a` holding a non-edict is bound in `b` to exactly the value from `a` (the
override clobbers the default), and every key of `a` holding an edict has
been merged recursively in the same way into what `b` held at that key. -/
theorem c3_merge_clobbers (a b b' : List (String × Val))
    (hnd : (keys a).Nodup) (h : mergeAIntoB (Val.vdict a) b = Except.ok b') :
    ∀ k v, lookup a k = some v →
      (pyType v ≠ PyType.dictT → lookup b' k = some v) ∧
      (∀ va, v = Val.vdict va → ∃ vb m,
        lookup b k = some (Val.vdict vb) ∧
        mergeEntries va vb = Except.ok m ∧
        lookup b' k = some (Val.vdict m)) := by
  intro k v hk
  exact mergeEntries_ok_lookup a b hnd b' (by simpa [mergeAIntoB] using h) k v hk

theorem c3_merge_clobbers_witness :
    lookup [("n", vint 7), ("m", vint 1)] "n" = some (vint 7) :=
  (c3_merge_clobbers [("n", vint 7)] [("n", vint 0), ("m", vint 1)]
    [("n", vint 7), ("m", vint 1)] (by simp [keys])
    (by simp [mergeAIntoB, mergeEntries, lookup, pyType, vint, dictSet])
    "n" (vint 7) (by simp [lookup])).1 (by simp [vint, pyType])

/-- C4: when `_merge_a_into_b(a, b)` returns without raising, the key set of
`b` is unchanged, and every key of `b` that is not a key of `a` still maps to
its previous value. -/
theorem c4_merge_frame (a b b' : List (String × Val))
    (h : mergeAIntoB (Val.vdict a) b = Except.ok b') :
    keys b' = keys b ∧
    ∀ k, lookup a k = none → lookup b' k = lookup b k := by
  have h' : mergeEntries a b = Except.ok b' := by simpa [mergeAIntoB] using h
  exact ⟨mergeEntries_ok_keys a b b' h',
    fun k hk => mergeEntries_ok_frame a b b' h' k hk⟩

theorem c4_merge_frame_witness :
    lookup [("n", vint 7), ("m", vint 1)] "m"
      = lookup [("n", vint 0), ("m", vint 1)] "m" :=
  (c4_merge_frame [("n", vint 7)] [("n", vint 0), ("m", vint 1)]
    [("n", vint 7), ("m", vint 1)]
    (by simp [mergeAIntoB, mergeEntries, lookup, pyType, vint, dictSet])).2
    "m" (by simp [lookup])

/-- C9: for a non-edict `a`, `_merge_a_into_b(a, b)` returns normally with
`b` unchanged; consequently, the merge raises only when `a` is an edict
containing (at some reached nesting level) an invalid key or a
type-mismatched value. -/
theorem c9_non_edict_merge (a : Val) (b : List (String × Val)) :
    ((∀ ae, a ≠ Val.vdict ae) → mergeAIntoB a b = Except.ok b) ∧
    (∀ e, WFVal a → mergeAIntoB a b = Except.error e →
      ∃ ae, a = Val.vdict ae ∧ (MissingKey ae b ∨ TypeMismatch ae b)) := by
  constructor
  · intro h
    cases a with
    | vprim t d => simp [mergeAIntoB]
    | vdict ae => exact absurd rfl (h ae)
  · intro e hwf herr
    cases a with
    | vprim t d => simp [mergeAIntoB] at herr
    | vdict ae =>
      refine ⟨ae, rfl, ?_⟩
      cases hwf with
      | dict _ hwfe =>
        exact mergeEntries_error_defect ae b hwfe e
          (by simpa [mergeAIntoB] using herr)

theorem c9_non_edict_merge_witness :
    mergeAIntoB (vint 0) [("k", vint 1)] = Except.ok [("k", vint 1)] ∧
    ∃ ae, Val.vdict [("x", vint 0)] = Val.vdict ae ∧
      (MissingKey ae [] ∨ TypeMismatch ae []) :=
  ⟨(c9_non_edict_merge (vint 0) [("k", vint 1)]).1
      (fun ae h => by simp [vint] at h),
   (c9_non_edict_merge (Val.vdict [("x", vint 0)]) []).2 (MergeErr.keyErr "x")
     (WFVal.dict _ (WFEntries.cons "x" (vint 0) [] (by simp [keys])
       (WFVal.prim _ _) WFEntries.nil))
     (by simp [mergeAIntoB, mergeEntries, lookup])⟩

theorem numScales_toNat (n p : ℕ) (hn : 1 ≤ n) :
    (numScales n p).toNat = (n - 1) * p + 1 := by
  unfold numScales
  rw [show ((n : ℤ) - 1) = ((n - 1 : ℕ) : ℤ) by omega]
  rw [show ((n - 1 : ℕ) : ℤ) * p + 1 = (((n - 1) * p + 1 : ℕ) : ℤ) by push_cast; ring]
  exact Int.toNat_natCast _

theorem scale_index_lt (n p i : ℕ) (hn : 1 ≤ n) (hp : 1 ≤ p)
    (hi : i < (n - 1) * p + 1) : i / p < n := by
  have h1 : i ≤ (n - 1) * p := by omega
  have h2 : i / p ≤ (n - 1) * p / p := Nat.div_le_div_right h1
  rw [Nat.mul_div_cancel _ hp] at h2
  omega

theorem scale_index_succ_lt (n p i : ℕ) (hn : 1 ≤ n) (hp : 1 ≤ p)
    (hi : i < (n - 1) * p + 1) (hmod : i % p ≠ 0) : i / p + 1 < n := by
  have h1 : i ≤ (n - 1) * p := by omega
  have h2 : i / p ≤ (n - 1) * p / p := Nat.div_le_div_right h1
  rw [Nat.mul_div_cancel _ hp] at h2
  rcases Nat.lt_or_ge (i / p) (n - 1) with hlt | hge

  · omega
  · exfalso
    apply hmod
    have heq : i / p = n - 1 := le_antisymm h2 hge
    have hdm := Nat.div_add_mod i p
    rw [heq, Nat.mul_comm] at hdm
    generalize hA : (n - 1) * p = A at h1 hdm
    omega

theorem scaleAt_eq_spec (sb : List ℚ) (p i : ℕ) (hn : 1 ≤ sb.length)
    (hp : 1 ≤ p) (hi : i < (sb.length - 1) * p + 1) :
    scaleAt sb p i = some (scaleSpec sb p i) := by
  have h1 : i / p < sb.length := scale_index_lt _ p i hn hp hi
  unfold scaleAt scaleSpec
  rw [List.getElem?_eq_getElem h1]
  by_cases hm : i % p = 0
  · simp [hm, List.getD_eq_getElem?_getD, List.getElem?_eq_getElem h1]
  · have h2 : i / p + 1 < sb.length := scale_index_succ_lt _ p i hn hp hi hm
    rw [List.getElem?_eq_getElem h2]
    simp only [hm, if_false, List.getD_eq_getElem?_getD,
      List.getElem?_eq_getElem h1, List.getElem?_eq_getElem h2,
      Option.getD_some, Option.some.injEq]
    ring

theorem list_mapM_eq_map {α β : Type} (f : α → Option β) (g : α → β) :
    ∀ l : List α, (∀ x ∈ l, f x = some (g x)) →
      l.mapM f = some (l.map g) := by
  intro l
  induction l with
  | nil => intro _; rfl
  | cons x xs ih =>
    intro h
    rw [List.mapM_cons, h x (by simp), ih (fun y hy => h y (by simp [hy]))]
    rfl

/-- C5: for a base-scale tuple of length `n ≥ 1` and `NUM_PER_OCTAVE = p ≥ 1`,
the scale list has length `(n - 1) * p + 1`, entry `i` being
`SCALES_BASE[i / p]` when `i % p = 0` and the linear interpolation
`SCALES_BASE[i / p] + (i % p) * (SCALES_BASE[i / p + 1] - SCALES_BASE[i / p]) / p`
otherwise. -/
theorem c5_scales_formula (sb : List ℚ) (p : ℕ)
    (hn : 1 ≤ sb.length) (hp : 1 ≤ p) :
    ∃ l, computeScales sb p = some l ∧
      l.length = (sb.length - 1) * p + 1 ∧
      ∀ i, i < l.length →
        (i % p = 0 → l.getD i 0 = sb.getD (i / p) 0) ∧
        (i % p ≠ 0 → l.getD i 0 = sb.getD (i / p) 0 +
          (i % p : ℚ) * (sb.getD (i / p + 1) 0 - sb.getD (i / p) 0) / p) := by
  refine ⟨(List.range ((sb.length - 1) * p + 1)).map (scaleSpec sb p),
    ?_, by simp, ?_⟩
  · unfold computeScales
    rw [numScales_toNat sb.length p hn]
    exact list_mapM_eq_map _ _ _
      (fun i hi => scaleAt_eq_spec sb p i hn hp (by simpa using hi))
  · intro i hi
    simp at hi
    have hentry :
        ((List.range ((sb.length - 1) * p + 1)).map (scaleSpec sb p)).getD i 0
          = scaleSpec sb p i := by
      rw [List.getD_eq_getElem?_getD, List.getElem?_map,
        List.getElem?_range hi]
      rfl
    rw [hentry]
    unfold scaleSpec
    constructor
    · intro hm; simp [hm]
    · intro hm; simp [hm]

theorem c5_scales_formula_witness : (computeScales [1, 2] 1).isSome = true := by
  obtain ⟨l, hl, -, -⟩ := c5_scales_formula [1, 2] 1 (by decide) (by decide)
  rw [hl]; rfl

/-- C6: every index the scale loop uses is in bounds: each loop index
`i < (n - 1) * p + 1` has `i / p < n`, and `i / p + 1 < n` whenever
`i % p ≠ 0`, so the loop body never faults (`scaleAt` is `some`). -/
theorem c6_scale_indices_safe (sb : List ℚ) (p : ℕ)
    (hn : 1 ≤ sb.length) (hp : 1 ≤ p) :
    ∀ i, i < (numScales sb.length p).toNat →
      i / p < sb.length ∧
      (i % p ≠ 0 → i / p + 1 < sb.length) ∧
      (scaleAt sb p i).isSome = true := by
  intro i hi
  rw [numScales_toNat sb.length p hn] at hi
  refine ⟨scale_index_lt _ p i hn hp hi,
    fun hm => scale_index_succ_lt _ p i hn hp hi hm, ?_⟩
  rw [scaleAt_eq_spec sb p i hn hp hi]
  rfl

theorem c6_scale_indices_safe_witness :
    0 / 1 < ([1, 2] : List ℚ).length ∧
    (0 % 1 ≠ 0 → 0 / 1 + 1 < ([1, 2] : List ℚ).length) ∧
    (scaleAt [1, 2] 1 0).isSome = true :=
  c6_scale_indices_safe [1, 2] 1 (by decide) (by decide) 0 (by decide)

/-- C7: for positive aspect ratios, `widths[i] = sqrt(K*K / ASPECTS[i])` and
`heights[i] = widths[i] * ASPECTS[i]`, so each width-height pair has product
`K * K` for any square-root function satisfying `sqrt x * sqrt x = x` on
nonnegatives (which `math.sqrt` does up to floating-point rounding). -/
theorem c7_aspect_geometry (sq : ℝ → ℝ) (K : ℝ) (aspects : List ℝ)
    (hsq : ∀ x, 0 ≤ x → sq x * sq x = x)
    (hpos : ∀ a ∈ aspects, 0 < a) :
    ∀ i, i < aspects.length →
      (aspect_widths sq (K * K) aspects).getD i 0
        = sq (K * K / aspects.getD i 0) ∧
      (aspect_heights sq (K * K) aspects).getD i 0
        = (aspect_widths sq (K * K) aspects).getD i 0 * aspects.getD i 0 ∧
      (aspect_widths sq (K * K) aspects).getD i 0 *
        (aspect_heights sq (K * K) aspects).getD i 0 = K * K := by
  intro i hi
  have hgd : aspects.getD i 0 = aspects[i] := by
    rw [List.getD_eq_getElem?_getD, List.getElem?_eq_getElem hi]
    rfl
  have hW : (aspect_widths sq (K * K) aspects).getD i 0
      = sq (K * K / aspects[i]) := by
    unfold aspect_widths
    rw [List.getD_eq_getElem?_getD, List.getElem?_map,
      List.getElem?_eq_getElem hi]
    rfl
  have hH : (aspect_heights sq (K * K) aspects).getD i 0
      = sq (K * K / aspects[i]) * aspects[i] := by
    unfold aspect_heights
    rw [List.getD_eq_getElem?_getD, List.getElem?_map,
      List.getElem?_eq_getElem hi]
    rfl
  have ha : 0 < aspects[i] := hpos _ (List.getElem_mem hi)
  refine ⟨by rw [hW, hgd], by rw [hW, hH, hgd], ?_⟩
  rw [hW, hH]
  have hnn : 0 ≤ K * K / aspects[i] := div_nonneg (mul_self_nonneg K) ha.le
  calc sq (K * K / aspects[i]) * (sq (K * K / aspects[i]) * aspects[i])
      = (sq (K * K / aspects[i]) * sq (K * K / aspects[i])) * aspects[i] := by
        ring
    _ = (K * K / aspects[i]) * aspects[i] := by rw [hsq _ hnn]
    _ = K * K := div_mul_cancel₀ _ (ne_of_gt ha)

theorem c7_aspect_geometry_witness :
    (aspect_widths Real.sqrt ((5 : ℝ) * 5) [1]).getD 0 0 *
      (aspect_heights Real.sqrt ((5 : ℝ) * 5) [1]).getD 0 0 = 5 * 5 :=
  (c7_aspect_geometry Real.sqrt 5 [1]
    (fun x hx => Real.mul_self_sqrt hx)
    (fun a ha => by rw [List.mem_singleton] at ha; rw [ha]; exact one_pos)
    0 (by decide)).2.2

/-- C8: `cfg_from_file` first merges the parsed override into the config and
only then executes the derived-value geometry computation, once for training
and once for testing, on the merged config; when the merge raises, the error
propagates and no geometry runs. -/
theorem c8_merge_before_geometry (sq : ℚ → ℚ) (yaml_cfg : Val)
    (c : List (String × Val)) :
    (∀ e, mergeAIntoB yaml_cfg c = Except.error e →
      cfg_from_file sq yaml_cfg c = Except.error e) ∧
    (∀ c1, mergeAIntoB yaml_cfg c = Except.ok c1 →
      cfg_from_file sq yaml_cfg c =
        match addMoreInfo sq true c1 with
        | none => Except.ok none
        | some c2 =>
          match addMoreInfo sq false c2 with
          | none => Except.ok none
          | some c3 => Except.ok (some c3)) := by
  constructor
  · intro e he
    simp [cfg_from_file, he]
  · intro c1 hc1
    simp [cfg_from_file, hc1]

theorem c8_merge_before_geometry_witness :
    cfg_from_file (fun x => x) (Val.vdict [("x", vint 0)]) []
      = Except.error (MergeErr.keyErr "x") ∧
    cfg_from_file (fun x => x) (Val.vdict []) [("k", vint 3)]
      = match addMoreInfo (fun x => x) true [("k", vint 3)] with
        | none => Except.ok none
        | some c2 =>
          match addMoreInfo (fun x => x) false c2 with
          | none => Except.ok none
          | some c3 => Except.ok (some c3) :=
  ⟨(c8_merge_before_geometry (fun x => x) (Val.vdict [("x", vint 0)]) []).1
      (MergeErr.keyErr "x") (by simp [mergeAIntoB, mergeEntries, lookup]),
   (c8_merge_before_geometry (fun x => x) (Val.vdict []) [("k", vint 3)]).2
      [("k", vint 3)] (by simp [mergeAIntoB, mergeEntries])⟩

/-- C10: `get_output_dir(imdb, net)` returns `ROOT_DIR/output/EXP_DIR/imdb`
when `net` is `None` and that same path extended with the net name otherwise,
and it returns the config unchanged. -/
theorem c10_get_output_dir (cfg : OutCfg) (imdb_name : String)
    (net_name : Option String) :
    (get_output_dir cfg imdb_name none).1
      = pathJoin (pathJoin (pathJoin cfg.ROOT_DIR "output") cfg.EXP_DIR)
          imdb_name ∧
    (∀ n, net_name = some n →
      (get_output_dir cfg imdb_name net_name).1
        = pathJoin (get_output_dir cfg imdb_name none).1 n) ∧
    (get_output_dir cfg imdb_name net_name).2 = cfg := by
  refine ⟨rfl, fun n hn => ?_, ?_⟩
  · subst hn; rfl
  · cases net_name <;> rfl

theorem c10_get_output_dir_witness :
    (get_output_dir ⟨"root", "exp"⟩ "imdb" (some "net")).1
      = pathJoin (get_output_dir ⟨"root", "exp"⟩ "imdb" none).1 "net" :=
  (c10_get_output_dir ⟨"root", "exp"⟩ "imdb" (some "net")).2.1 "net" rfl
